import Mathlib

/-!
Shallow embedding of the forensic scoring engine of `src/main.py`
(hybrid AI-image detection system).

The repository's own computations — radial-band spectral energy, the
residual histogram and entropy statistic, 8×8 block-variance partitioning,
the correlation guard, clipping and the weighted aggregation — are
translated definition-by-definition over `ℝ`.  External library
primitives the code calls (`cv2.imread`, `cv2.cvtColor`, `cv2.resize`,
`cv2.medianBlur`, `cv2.Laplacian`, the JPEG encode/decode round trip,
`np.corrcoef`, the `uint8` cast) are parameters of the development,
bundled in the structure `Prims`, since the claims quantify over their
behaviour rather than fix it.
-/

noncomputable section

open Classical

/-- A decoded image: an H×W grid of BGR pixels (one real per channel). -/
structure Image where
  H : ℕ
  W : ℕ
  pix : Fin H → Fin W → Fin 3 → ℝ

/-- An m×n real matrix (a derived grayscale / spectral buffer). -/
abbrev Mat (m n : ℕ) := Fin m → Fin n → ℝ

/-- External library primitives used by `main.py` (OpenCV / numpy calls).
The analyzers are parametric in these; every claim is stated for all
primitive behaviours unless it pins one down. -/
structure Prims where
  /-- `cv2.imread` : decode a path into a BGR pixel grid, `none` on failure. -/
  imread : String → Option Image
  /-- `cv2.cvtColor(·, COLOR_BGR2GRAY)`. -/
  cvtGray : (H W : ℕ) → (Fin H → Fin W → Fin 3 → ℝ) → Mat H W
  /-- `cv2.resize(·, (256,256), interpolation=INTER_AREA)`. -/
  resizeArea256 : (H W : ℕ) → Mat H W → Mat 256 256
  /-- `np.ndarray.astype(np.uint8)` applied elementwise. -/
  u8 : ℝ → ℝ
  /-- `cv2.medianBlur(·, 3)`. -/
  medianBlur3 : (H W : ℕ) → Mat H W → Mat H W
  /-- `cv2.Laplacian(·, cv2.CV_64F)`. -/
  laplacian : (H W : ℕ) → Mat H W → Mat H W
  /-- `cv2.imdecode(cv2.imencode('.jpg', ·, quality 85), IMREAD_COLOR)` :
  the JPEG-85 re-encode/decode round trip on a BGR pixel grid. -/
  jpeg85 : (H W : ℕ) → (Fin H → Fin W → Fin 3 → ℝ) → (Fin H → Fin W → Fin 3 → ℝ)
  /-- `np.corrcoef(a, b)[0, 1]` on two flattened channels. -/
  corrcoef01 : (H W : ℕ) → (Fin H × Fin W → ℝ) → (Fin H × Fin W → ℝ) → ℝ

/-- `np.clip(x, lo, hi)`. -/
def clip (x lo hi : ℝ) : ℝ := min (max x lo) hi

theorem clip01_mem (x : ℝ) : 0 ≤ clip x 0 1 ∧ clip x 0 1 ≤ 1 :=
  ⟨le_min (le_max_right x 0) zero_le_one, min_le_right _ _⟩

/-- `np.mean` over a finite index family. -/
def meanF {ι : Type} [Fintype ι] (f : ι → ℝ) : ℝ :=
  (∑ i, f i) / (Fintype.card ι)

/-- `np.var` (population variance, ddof = 0) over a finite index family. -/
def varF {ι : Type} [Fintype ι] (f : ι → ℝ) : ℝ :=
  (∑ i, (f i - meanF f) ^ 2) / (Fintype.card ι)

/-- `np.std` over a finite index family. -/
def stdF {ι : Type} [Fintype ι] (f : ι → ℝ) : ℝ :=
  Real.sqrt (varF f)

theorem varF_const {ι : Type} [Fintype ι] (c : ℝ) : varF (fun _ : ι => c) = 0 := by
  rcases Nat.eq_zero_or_pos (Fintype.card ι) with h | h
  · have : IsEmpty ι := Fintype.card_eq_zero_iff.mp h
    simp [varF, meanF]
  · have hc : (Fintype.card ι : ℝ) ≠ 0 := Nat.cast_ne_zero.mpr h.ne'
    have hmean : meanF (fun _ : ι => c) = c := by
      simp only [meanF, Finset.sum_const, Finset.card_univ, nsmul_eq_mul]
      field_simp
    simp [varF, hmean]

theorem stdF_const {ι : Type} [Fintype ι] (c : ℝ) : stdF (fun _ : ι => c) = 0 := by
  rw [stdF, varF_const, Real.sqrt_zero]

/-! ### FrequencyAnalyzer — `frequency_score` (main.py lines 47-74) -/

/-- `cv2.resize(cv2.cvtColor(image, BGR2GRAY), (256,256), INTER_AREA)` :
the 256×256 grayscale canvas the spectrum is computed on. -/
def gray256 (P : Prims) (img : Image) : Mat 256 256 :=
  P.resizeArea256 img.H img.W (P.cvtGray img.H img.W img.pix)

/-- `np.fft.fft2` on the 256×256 grayscale canvas (forward DFT, no
normalization, kernel `exp(-2πi(uy/256 + vx/256))`). -/
def fft2 (g : Mat 256 256) : Fin 256 → Fin 256 → ℂ := fun u v =>
  ∑ y : Fin 256, ∑ x : Fin 256,
    (g y x : ℂ) *
      Complex.exp (-(2 * Real.pi * Complex.I) *
        (((u : ℕ) : ℂ) * ((y : ℕ) : ℂ) / 256 + ((v : ℕ) : ℂ) * ((x : ℕ) : ℂ) / 256))

/-- `np.fft.fftshift` on a 256×256 grid: roll both axes by 128. -/
def fshift (F : Fin 256 → Fin 256 → ℂ) : Fin 256 → Fin 256 → ℂ :=
  fun i j => F (i + 128) (j + 128)

/-- `mag_log = np.log1p(np.abs(np.fft.fftshift(np.fft.fft2(gray))))`. -/
def magLog (P : Prims) (img : Image) : Mat 256 256 :=
  fun i j => Real.log (1 + Complex.abs (fshift (fft2 (gray256 P img)) i j))

/-- `r[y,x] = sqrt((x-cx)² + (y-cy)²)` with `cy = cx = 256 // 2 = 128`. -/
def rad (y x : Fin 256) : ℝ :=
  Real.sqrt ((((x : ℕ) : ℝ) - 128) ^ 2 + (((y : ℕ) : ℝ) - 128) ^ 2)

/-- `max_r = r.max()`. -/
def maxR : ℝ :=
  (Finset.univ : Finset (Fin 256 × Fin 256)).sup' Finset.univ_nonempty
    fun p => rad p.1 p.2

/-- `mag_log[low_mask].sum()` where `low_mask = r <= 0.25 * max_r`. -/
def lowSum (P : Prims) (img : Image) : ℝ :=
  ∑ p : Fin 256 × Fin 256,
    if rad p.1 p.2 ≤ 0.25 * maxR then magLog P img p.1 p.2 else 0

/-- `mag_log[mid_mask].sum()` where
`mid_mask = (r > 0.25 * max_r) & (r <= 0.6 * max_r)`. -/
def midSum (P : Prims) (img : Image) : ℝ :=
  ∑ p : Fin 256 × Fin 256,
    if 0.25 * maxR < rad p.1 p.2 ∧ rad p.1 p.2 ≤ 0.6 * maxR then
      magLog P img p.1 p.2 else 0

/-- `mag_log[high_mask].sum()` where `high_mask = r > 0.6 * max_r`. -/
def highSum (P : Prims) (img : Image) : ℝ :=
  ∑ p : Fin 256 × Fin 256,
    if 0.6 * maxR < rad p.1 p.2 then magLog P img p.1 p.2 else 0

/-- `total = mag_log.sum() + 1e-8`. -/
def totalE (P : Prims) (img : Image) : ℝ :=
  (∑ p : Fin 256 × Fin 256, magLog P img p.1 p.2) + 1e-8

/-- `low_energy = mag_log[low_mask].sum() / total`. -/
def lowEnergy (P : Prims) (img : Image) : ℝ := lowSum P img / totalE P img

/-- `mid_energy = mag_log[mid_mask].sum() / total`. -/
def midEnergy (P : Prims) (img : Image) : ℝ := midSum P img / totalE P img

/-- `high_energy = mag_log[high_mask].sum() / total`. -/
def highEnergy (P : Prims) (img : Image) : ℝ := highSum P img / totalE P img

/-- `balance = (mid_energy + high_energy) / (low_energy + 1e-8)`. -/
def balance (P : Prims) (img : Image) : ℝ :=
  (midEnergy P img + highEnergy P img) / (lowEnergy P img + 1e-8)

/-- `frequency_score(image)` (main.py 47-74).  Returns the pair the
function returns — `(score, mag_log)` — together with the final contents
of the input buffer (never written to by the function body). -/
def frequency_score (P : Prims) (img : Image) : (ℝ × Mat 256 256) × Image :=
  ((clip (highEnergy P img * 0.7 + (balance P img / (balance P img + 1)) * 0.3) 0 1,
    magLog P img), img)

theorem rad_nonneg (y x : Fin 256) : 0 ≤ rad y x := Real.sqrt_nonneg _

theorem maxR_nonneg : 0 ≤ maxR :=
  le_trans (rad_nonneg 0 0)
    (Finset.le_sup' (fun p : Fin 256 × Fin 256 => rad p.1 p.2)
      (Finset.mem_univ ((0 : Fin 256), (0 : Fin 256))))

/-! ### NoiseAnalyzer — `noise_score` (main.py lines 76-95) -/

/-- `gray = cv2.cvtColor(image, BGR2GRAY).astype(np.float32) / 255.0`. -/
def grayN (P : Prims) (img : Image) : Fin img.H → Fin img.W → ℝ :=
  fun i j => P.cvtGray img.H img.W img.pix i j / 255

/-- `med = cv2.medianBlur((gray*255).astype(np.uint8), 3).astype(np.float32) / 255.0`. -/
def medN (P : Prims) (img : Image) : Fin img.H → Fin img.W → ℝ :=
  fun i j =>
    P.medianBlur3 img.H img.W (fun a b => P.u8 (grayN P img a b * 255)) i j / 255

/-- `residual = gray - med`. -/
def residualN (P : Prims) (img : Image) : Fin img.H → Fin img.W → ℝ :=
  fun i j => grayN P img i j - medN P img i j

/-- `lap = np.abs(cv2.Laplacian((gray*255).astype(np.uint8), cv2.CV_64F))`. -/
def lapN (P : Prims) (img : Image) : Fin img.H → Fin img.W → ℝ :=
  fun i j =>
    |P.laplacian img.H img.W (fun a b => P.u8 (grayN P img a b * 255)) i j|

/-- `residual.ravel()` : the residual matrix flattened row-major. -/
def residualList (P : Prims) (img : Image) : List ℝ :=
  (List.finRange img.H).flatMap fun i =>
    (List.finRange img.W).map fun j => residualN P img i j

/-- The bin width of `np.histogram(·, bins=64, range=(-0.2, 0.2))` :
`(0.2 - (-0.2)) / 64 = 1/160`. -/
def binW : ℝ := 1 / 160

/-- The k-th bin edge of the histogram: `-0.2 + k * (0.4/64)`. -/
def binEdge (k : ℕ) : ℝ := -(1 / 5) + (k : ℝ) * binW

/-- Membership of a value in the k-th histogram bin, numpy semantics:
half-open `[edge_k, edge_{k+1})` for every bin except the last, which is
closed `[edge_63, edge_64]`. -/
def binMem (k : Fin 64) (v : ℝ) : Prop :=
  binEdge k ≤ v ∧
    (((k : ℕ) = 63 ∧ v ≤ binEdge 64) ∨ ((k : ℕ) ≠ 63 ∧ v < binEdge ((k : ℕ) + 1)))

/-- The k-th raw bin count of `np.histogram(d, bins=64, range=(-0.2, 0.2))`. -/
def histCountL (k : Fin 64) : List ℝ → ℕ
  | [] => 0
  | v :: t => (if binMem k v then 1 else 0) + histCountL k t

/-- The total number of samples counted by the histogram
(`n.sum()` in numpy's density normalization). -/
def histTotal (d : List ℝ) : ℕ := ∑ k : Fin 64, histCountL k d

/-- The k-th value of `np.histogram(d, bins=64, range=(-0.2, 0.2),
density=True)` : the raw count divided by the bin width and by the total
count. -/
def histDensityL (d : List ℝ) (k : Fin 64) : ℝ :=
  ((histCountL k d : ℝ) / binW) / (histTotal d : ℝ)

/-- `hist = hist + 1e-12; entropy = -np.sum(hist * np.log(hist))` :
the entropy statistic computed from the density histogram of `d`. -/
def noiseEntropy (d : List ℝ) : ℝ :=
  -∑ k : Fin 64, (histDensityL d k + 1e-12) * Real.log (histDensityL d k + 1e-12)

/-- `resid_std = np.std(residual)`. -/
def residStd (P : Prims) (img : Image) : ℝ :=
  stdF fun p : Fin img.H × Fin img.W => residualN P img p.1 p.2

/-- `lap_std = np.std(lap) / 255.0`. -/
def lapStd (P : Prims) (img : Image) : ℝ :=
  (stdF fun p : Fin img.H × Fin img.W => lapN P img p.1 p.2) / 255

/-- `noise_score(image)` (main.py 76-95).  Returns `(score, residual)`
together with the final contents of the input buffer. -/
def noise_score (P : Prims) (img : Image) :
    (ℝ × (Fin img.H → Fin img.W → ℝ)) × Image :=
  ((clip (0.45 * Real.tanh (residStd P img * 10) +
          0.35 * Real.tanh (lapStd P img * 5) +
          0.20 * Real.tanh (noiseEntropy (residualList P img) / 3.0)) 0 1,
    residualN P img), img)

/-! ### CompressionAnalyzer — `compression_score` (main.py lines 97-117) -/

/-- Python `range(0, stop, step)` for `step > 0`, as a list of naturals
(`stop` may be negative, giving the empty list). -/
def pyRange0 (stop : ℤ) (step : ℕ) : List ℕ :=
  (List.range (if stop ≤ 0 then 0 else (stop - 1).toNat / step + 1)).map (· * step)

/-- `dec = cv2.imdecode(cv2.imencode('.jpg', image, quality 85), IMREAD_COLOR)`,
then `error = np.abs(orig - dec_gray) / 255.0` where `orig` and `dec_gray`
are the float grayscales of the original and re-encoded images. -/
def errorMap (P : Prims) (img : Image) : Fin img.H → Fin img.W → ℝ :=
  fun i j =>
    |P.cvtGray img.H img.W img.pix i j -
      P.cvtGray img.H img.W (P.jpeg85 img.H img.W img.pix) i j| / 255

/-- The error map read at unbounded indices (out-of-range reads default to
0; the block loop below only ever reads in range). -/
def errExt (img : Image) (e : Fin img.H → Fin img.W → ℝ) (i j : ℕ) : ℝ :=
  if h : i < img.H ∧ j < img.W then e ⟨i, h.1⟩ ⟨j, h.2⟩ else 0

/-- `np.var(error[y:y+8, x:x+8])` : population variance of one 8×8 block. -/
def blockVar (img : Image) (e : Fin img.H → Fin img.W → ℝ) (y x : ℕ) : ℝ :=
  varF fun d : Fin 8 × Fin 8 => errExt img e (y + (d.1 : ℕ)) (x + (d.2 : ℕ))

/-- The `variances` list built by the double loop
`for y in range(0, h-8+1, 8): for x in range(0, w-8+1, 8)`. -/
def variancesList (P : Prims) (img : Image) : List ℝ :=
  (pyRange0 ((img.H : ℤ) - 8 + 1) 8).flatMap fun y =>
    (pyRange0 ((img.W : ℤ) - 8 + 1) 8).map fun x =>
      blockVar img (errorMap P img) y x

/-- `np.mean` of a list (used by `np.std(variances)`). -/
def listMean (l : List ℝ) : ℝ := l.sum / (l.length : ℝ)

/-- `np.std` of a list: population standard deviation. -/
def listStd (l : List ℝ) : ℝ :=
  Real.sqrt ((l.map fun v => (v - listMean l) ^ 2).sum / (l.length : ℝ))

/-- `compression_score(image)` (main.py 97-117).  Returns `(score, error)`
together with the final contents of the input buffer; the degenerate
zero-block case short-circuits to `(0.5, error)`. -/
def compression_score (P : Prims) (img : Image) :
    (ℝ × (Fin img.H → Fin img.W → ℝ)) × Image :=
  ((if (variancesList P img).length = 0 then 0.5
    else clip (Real.tanh (listStd (variancesList P img) * 50)) 0 1,
    errorMap P img), img)

/-! ### ColorCorrelationAnalyzer — `color_corr_score` (main.py lines 119-131) -/

/-- `rgb = cv2.cvtColor(image, BGR2RGB); r = rgb[:,:,0].ravel()` :
the red channel is BGR channel 2. -/
def chR (img : Image) : Fin img.H × Fin img.W → ℝ :=
  fun p => img.pix p.1 p.2 2

/-- `g = rgb[:,:,1].ravel()` : the green channel is BGR channel 1. -/
def chG (img : Image) : Fin img.H × Fin img.W → ℝ :=
  fun p => img.pix p.1 p.2 1

/-- `b = rgb[:,:,2].ravel()` : the blue channel is BGR channel 0. -/
def chB (img : Image) : Fin img.H × Fin img.W → ℝ :=
  fun p => img.pix p.1 p.2 0

/-- `safe_corr(a, b)` : 0 when either channel has `np.std < 1e-6`, else
`np.corrcoef(a, b)[0, 1]`. -/
def safe_corr (P : Prims) (img : Image) (a b : Fin img.H × Fin img.W → ℝ) : ℝ :=
  if stdF a < 1e-6 ∨ stdF b < 1e-6 then 0 else P.corrcoef01 img.H img.W a b

/-- `color_corr_score(image)` (main.py 119-131).  Returns the score
together with the final contents of the input buffer. -/
def color_corr_score (P : Prims) (img : Image) : ℝ × Image :=
  (clip (((safe_corr P img (chR img) (chG img) +
           safe_corr P img (chR img) (chB img) +
           safe_corr P img (chG img) (chB img)) / 3 + 1) / 2.0) 0 1, img)

/-! ### ForensicAggregator — `forensic_analyze` (main.py lines 136-156) -/

/-- `w_freq = 0.35`. -/
def w_freq : ℝ := 0.35

/-- `w_noise = 0.3`. -/
def w_noise : ℝ := 0.3

/-- `w_comp = 0.2`. -/
def w_comp : ℝ := 0.2

/-- `w_color = 0.15`. -/
def w_color : ℝ := 0.15

/-- The dictionary returned by `forensic_analyze` on a decoded image. -/
structure ForensicReport where
  forensic_score : ℝ
  frequency : ℝ
  noise : ℝ
  compression : ℝ
  color_corr : ℝ

/-- The report built from a decoded image: the four sub-scores and their
clipped weighted sum (main.py 141-156). -/
def forensicReport (P : Prims) (img : Image) : ForensicReport :=
  { forensic_score :=
      clip (w_freq * (frequency_score P img).1.1 +
            w_noise * (noise_score P img).1.1 +
            w_comp * (compression_score P img).1.1 +
            w_color * (color_corr_score P img).1) 0 1
    frequency := (frequency_score P img).1.1
    noise := (noise_score P img).1.1
    compression := (compression_score P img).1.1
    color_corr := (color_corr_score P img).1 }

/-- `forensic_analyze(image_path)` (main.py 136-156): decode, fail fast
with the `ValueError` message when decoding returns nothing, otherwise
run the four analyzers and aggregate. -/
def forensic_analyze (P : Prims) (image_path : String) : Except String ForensicReport :=
  match P.imread image_path with
  | none => Except.error "Cannot read image for forensic analysis."
  | some image => Except.ok (forensicReport P image)

/-! ### Concrete inputs used by witnesses and counterexamples -/

/-- A 1×1 single-color image (every channel 128). -/
def imgFlat : Image := ⟨1, 1, fun _ _ _ => 128⟩

/-- A 4×4 image — smaller than one 8×8 block in both dimensions. -/
def imgTiny : Image := ⟨4, 4, fun _ _ _ => 0⟩

/-- A 4×100 image — smaller than one 8×8 block in height only. -/
def imgWide : Image := ⟨4, 100, fun _ _ _ => 0⟩

/-- A primitive bundle whose decoder always fails and whose filters
return zeros. -/
def zeroPrims : Prims where
  imread := fun _ => none
  cvtGray := fun _ _ _ => fun _ _ => 0
  resizeArea256 := fun _ _ _ => fun _ _ => 0
  u8 := fun x => x
  medianBlur3 := fun _ _ g => g
  laplacian := fun _ _ _ => fun _ _ => 0
  jpeg85 := fun _ _ p => p
  corrcoef01 := fun _ _ _ _ => 0

/-- A primitive bundle with the same (failing) decoder as `zeroPrims` but
different analyzer primitives. -/
def onesPrims : Prims where
  imread := fun _ => none
  cvtGray := fun _ _ _ => fun _ _ => 1
  resizeArea256 := fun _ _ _ => fun _ _ => 1
  u8 := fun _ => 1
  medianBlur3 := fun _ _ _ => fun _ _ => 1
  laplacian := fun _ _ _ => fun _ _ => 1
  jpeg85 := fun _ _ _ => fun _ _ _ => 1
  corrcoef01 := fun _ _ _ _ => 1

/-- A primitive bundle whose decoder always yields the flat 1×1 image. -/
def flatPrims : Prims where
  imread := fun _ => some imgFlat
  cvtGray := fun _ _ _ => fun _ _ => 0
  resizeArea256 := fun _ _ _ => fun _ _ => 0
  u8 := fun x => x
  medianBlur3 := fun _ _ g => g
  laplacian := fun _ _ _ => fun _ _ => 0
  jpeg85 := fun _ _ p => p
  corrcoef01 := fun _ _ _ _ => 0

/-! ### Helper lemmas -/

theorem binMem_zero_iff (k : Fin 64) : binMem k 0 ↔ k = (32 : Fin 64) := by
  unfold binMem binEdge binW
  constructor
  · rintro ⟨h1, h2⟩
    have hk1 : (((k : ℕ) : ℝ)) ≤ 32 := by linarith
    have hk1n : (k : ℕ) ≤ 32 := by exact_mod_cast hk1
    rcases h2 with ⟨h63, _⟩ | ⟨_, hlt⟩
    · exact absurd h63 (by omega)
    · have hcast : (32 : ℝ) < (((k : ℕ) : ℝ)) + 1 := by push_cast at hlt; linarith
      have hk2n : (32 : ℕ) < (k : ℕ) + 1 := by exact_mod_cast hcast
      exact Fin.ext (by rw [show ((32 : Fin 64) : ℕ) = 32 from rfl]; omega)
  · rintro rfl
    refine ⟨?_, Or.inr ⟨by decide, ?_⟩⟩
    · rw [show ((32 : Fin 64) : ℕ) = 32 from rfl]; norm_num
    · rw [show (((32 : Fin 64) : ℕ) + 1 : ℕ) = 33 from by decide]; norm_num

theorem histCountL_single_zero (k : Fin 64) :
    histCountL k [(0 : ℝ)] = if k = (32 : Fin 64) then 1 else 0 := by
  simp [histCountL, binMem_zero_iff]

theorem histTotal_single_zero : histTotal [(0 : ℝ)] = 1 := by
  simp [histTotal, histCountL_single_zero, Finset.sum_ite_eq']

theorem sum_histDensity (d : List ℝ) (h : histTotal d ≠ 0) :
    ∑ k : Fin 64, histDensityL d k = 160 := by
  have hN : ((histTotal d : ℕ) : ℝ) ≠ 0 := Nat.cast_ne_zero.mpr h
  have hsum : ∑ k : Fin 64, ((histCountL k d : ℕ) : ℝ) = ((histTotal d : ℕ) : ℝ) := by
    rw [histTotal, Nat.cast_sum]
  simp only [histDensityL, div_div]
  rw [← Finset.sum_div, hsum, binW]
  field_simp

theorem residualList_flat : residualList flatPrims imgFlat = [(0 : ℝ)] := by
  simp [residualList, imgFlat, flatPrims, residualN, grayN, medN,
    List.finRange_succ, List.finRange_zero]

theorem pyRange0_eq_nil_iff (stop : ℤ) (step : ℕ) :
    pyRange0 stop step = [] ↔ stop ≤ 0 := by
  rw [pyRange0]
  rcases le_or_lt stop 0 with h | h
  · simp [h]
  · rw [if_neg (not_le.mpr h)]
    simp [List.range_succ, h.not_le]

theorem clip_of_mem {x lo hi : ℝ} (h1 : lo ≤ x) (h2 : x ≤ hi) : clip x lo hi = x := by
  rw [clip, max_eq_left h1, min_eq_left h2]

/-! ### Claims -/

/-- C1: the aggregator computes
`forensic_score = clip(0.35·frequency + 0.30·noise + 0.20·compression +
0.15·color_corr, 0, 1)` exactly on the four sub-scores it reports, and
the four fixed weights sum to 1. -/
theorem aggregator_weighted_clip (P : Prims) (img : Image) :
    (forensicReport P img).forensic_score =
      clip (0.35 * (forensicReport P img).frequency +
            0.30 * (forensicReport P img).noise +
            0.20 * (forensicReport P img).compression +
            0.15 * (forensicReport P img).color_corr) 0 1 ∧
    w_freq + w_noise + w_comp + w_color = 1 := by
  constructor
  · show clip (w_freq * (frequency_score P img).1.1 +
        w_noise * (noise_score P img).1.1 +
        w_comp * (compression_score P img).1.1 +
        w_color * (color_corr_score P img).1) 0 1 = _
    congr 1
    simp only [forensicReport]
    norm_num [w_freq, w_noise, w_comp, w_color]
  · norm_num [w_freq, w_noise, w_comp, w_color]

/-- C2: each of the four sub-scores and the aggregated forensic score in
the report produced for any successfully decoded image lies in
[0, 1] — every branch ends in a clip into [0,1] (or the constant 0.5), so
the real-valued semantics yields well-defined bounded values. -/
theorem scores_in_unit_interval (P : Prims) (img : Image) :
    (0 ≤ (forensicReport P img).frequency ∧ (forensicReport P img).frequency ≤ 1) ∧
    (0 ≤ (forensicReport P img).noise ∧ (forensicReport P img).noise ≤ 1) ∧
    (0 ≤ (forensicReport P img).compression ∧ (forensicReport P img).compression ≤ 1) ∧
    (0 ≤ (forensicReport P img).color_corr ∧ (forensicReport P img).color_corr ≤ 1) ∧
    (0 ≤ (forensicReport P img).forensic_score ∧ (forensicReport P img).forensic_score ≤ 1) := by
  refine ⟨clip01_mem _, clip01_mem _, ?_, clip01_mem _, clip01_mem _⟩
  have hc : (forensicReport P img).compression =
      if (variancesList P img).length = 0 then (0.5 : ℝ)
      else clip (Real.tanh (listStd (variancesList P img) * 50)) 0 1 := rfl
  by_cases h : (variancesList P img).length = 0
  · rw [hc, if_pos h]; norm_num
  · rw [hc, if_neg h]; exact clip01_mem _

/-- C4: the frequency analyzer partitions the shifted log-magnitude
spectrum into three radial bands (low r ≤ 0.25·r_max, mid
0.25·r_max < r ≤ 0.6·r_max, high r > 0.6·r_max — every grid point falls
in exactly one band), divides each band's log-magnitude sum by the total
log-magnitude sum plus epsilon, sets
balance = (mid+high)/(low+ε), and returns
clip(0.7·high_energy + 0.3·(balance/(balance+1)), 0, 1). -/
theorem frequency_band_formula (P : Prims) (img : Image) :
    (frequency_score P img).1.1 =
      clip (0.7 * highEnergy P img +
            0.3 * (balance P img / (balance P img + 1))) 0 1 ∧
    highEnergy P img =
      highSum P img / ((∑ p : Fin 256 × Fin 256, magLog P img p.1 p.2) + 1e-8) ∧
    midEnergy P img =
      midSum P img / ((∑ p : Fin 256 × Fin 256, magLog P img p.1 p.2) + 1e-8) ∧
    lowEnergy P img =
      lowSum P img / ((∑ p : Fin 256 × Fin 256, magLog P img p.1 p.2) + 1e-8) ∧
    balance P img = (midEnergy P img + highEnergy P img) / (lowEnergy P img + 1e-8) ∧
    ∀ p : Fin 256 × Fin 256,
      ((if rad p.1 p.2 ≤ 0.25 * maxR then 1 else 0) +
       (if 0.25 * maxR < rad p.1 p.2 ∧ rad p.1 p.2 ≤ 0.6 * maxR then 1 else 0) +
       (if 0.6 * maxR < rad p.1 p.2 then 1 else 0) : ℕ) = 1 := by
  refine ⟨?_, rfl, rfl, rfl, rfl, ?_⟩
  · show clip (highEnergy P img * 0.7 + (balance P img / (balance P img + 1)) * 0.3) 0 1 = _
    congr 1
    ring
  · intro p
    have hM : 0.25 * maxR ≤ 0.6 * maxR := by nlinarith [maxR_nonneg]
    rcases le_or_lt (rad p.1 p.2) (0.25 * maxR) with h1 | h1
    · rw [if_pos h1, if_neg (fun hc => absurd h1 (not_le.mpr hc.1)),
        if_neg (not_lt.mpr (h1.trans hM))]
    · rcases le_or_lt (rad p.1 p.2) (0.6 * maxR) with h2 | h2
      · rw [if_neg (not_le.mpr h1), if_pos ⟨h1, h2⟩, if_neg (not_lt.mpr h2)]
      · rw [if_neg (not_le.mpr (lt_of_le_of_lt hM h2)),
          if_neg (fun hc => absurd h2 (not_lt.mpr hc.2)), if_pos h2]

/-- C5: whenever the 8×8 block partition of the re-compression error map
yields zero blocks, the compression analyzer returns exactly the neutral
score 0.5 (and, being a total function, raises no error). -/
theorem compression_zero_blocks_neutral (P : Prims) (img : Image)
    (h : variancesList P img = []) : (compression_score P img).1.1 = 0.5 := by
  have hc : (compression_score P img).1.1 =
      if (variancesList P img).length = 0 then (0.5 : ℝ)
      else clip (Real.tanh (listStd (variancesList P img) * 50)) 0 1 := rfl
  rw [hc, h]
  rfl

/-- C5 witness: a 4×4 image yields zero blocks, hence score 0.5. -/
theorem compression_zero_blocks_neutral_witness :
    (compression_score zeroPrims imgTiny).1.1 = 0.5 :=
  compression_zero_blocks_neutral zeroPrims imgTiny rfl

/-- C6: on a perfectly flat single-color image every channel is constant,
each pairwise correlation falls back to 0 through the std < 1e-6 guard,
and the color-correlation score is exactly (0+1)/2 = 0.5. -/
theorem color_corr_flat_half (P : Prims) (img : Image) (v : ℝ)
    (hflat : ∀ i j c, img.pix i j c = v) :
    (color_corr_score P img).1 = 0.5 := by
  have hR : chR img = fun _ => v := funext fun p => hflat p.1 p.2 2
  have hG : chG img = fun _ => v := funext fun p => hflat p.1 p.2 1
  have hB : chB img = fun _ => v := funext fun p => hflat p.1 p.2 0
  have hstd : ∀ f : Fin img.H × Fin img.W → ℝ, f = (fun _ => v) → stdF f < 1e-6 := by
    intro f hf
    rw [hf, stdF_const]
    norm_num
  show clip (((safe_corr P img (chR img) (chG img) +
      safe_corr P img (chR img) (chB img) +
      safe_corr P img (chG img) (chB img)) / 3 + 1) / 2.0) 0 1 = 0.5
  simp only [safe_corr]
  rw [if_pos (Or.inl (hstd _ hR)), if_pos (Or.inl (hstd _ hR)),
    if_pos (Or.inl (hstd _ hG))]
  have hval : (((0 : ℝ) + 0 + 0) / 3 + 1) / 2.0 = 0.5 := by norm_num
  rw [hval, clip_of_mem (by norm_num) (by norm_num)]

/-- C6 witness: the concrete flat 1×1 image with all channels 128 scores
exactly 0.5. -/
theorem color_corr_flat_half_witness :
    (color_corr_score zeroPrims imgFlat).1 = 0.5 :=
  color_corr_flat_half zeroPrims imgFlat 128 fun _ _ _ => rfl

/-- C7: when decoding fails `forensic_analyze` returns the decode error
and nothing else — its result does not depend on any analyzer primitive,
so no analyzer has run and no partial report exists; when decoding
succeeds it returns a full report and no error. -/
theorem decode_failfast (P Q : Prims) (path : String)
    (hQ : Q.imread = P.imread) :
    (P.imread path = none →
      forensic_analyze P path =
        Except.error "Cannot read image for forensic analysis." ∧
      forensic_analyze Q path = forensic_analyze P path) ∧
    (∀ img, P.imread path = some img →
      forensic_analyze P path = Except.ok (forensicReport P img)) := by
  constructor
  · intro h
    constructor
    · simp only [forensic_analyze, h]
    · simp only [forensic_analyze, hQ, h]
  · intro img h
    simp only [forensic_analyze, h]

/-- C7 witness: on a path whose decode fails, two primitive bundles that
share the decoder but differ in every analyzer primitive both produce
exactly the decode error. -/
theorem decode_failfast_witness :
    forensic_analyze zeroPrims "p" =
      Except.error "Cannot read image for forensic analysis." ∧
    forensic_analyze onesPrims "p" = forensic_analyze zeroPrims "p" :=
  (decode_failfast zeroPrims onesPrims "p" rfl).1 rfl

/-- C8: `forensic_analyze` is deterministic — two runs whose decodes
yield the same pixel content return identical reports (the embedding is
a pure function of the decoded image). -/
theorem deterministic_scores (P : Prims) (p1 p2 : String) (img : Image)
    (h1 : P.imread p1 = some img) (h2 : P.imread p2 = some img) :
    forensic_analyze P p1 = forensic_analyze P p2 := by
  simp only [forensic_analyze, h1, h2]

/-- C8 witness: two paths decoding to the flat test image give equal
results. -/
theorem deterministic_scores_witness :
    forensic_analyze flatPrims "a" = forensic_analyze flatPrims "b" :=
  deterministic_scores flatPrims "a" "b" imgFlat rfl rfl

/-- C9: no analyzer mutates the decoded input image — running the four
analyzers in sequence, each threading through the input buffer, leaves
every pixel unchanged (the translated bodies contain no write to the
input; each derives fresh buffers). -/
theorem analyzers_readonly (P : Prims) (img : Image) :
    (color_corr_score P
      ((compression_score P
        ((noise_score P ((frequency_score P img).2)).2)).2)).2 = img ∧
    ∀ i j c,
      ((color_corr_score P
        ((compression_score P
          ((noise_score P ((frequency_score P img).2)).2)).2)).2).pix i j c =
        img.pix i j c :=
  ⟨rfl, fun _ _ _ => rfl⟩

/-- C10: the 8×8 block partition of the error map is empty exactly when
the image height or width is below 8, and in that case (including images
small in only one dimension, e.g. 4×100) the compression score is the
neutral 0.5. -/
theorem compression_blocks_empty_iff_small (P : Prims) (img : Image) :
    (variancesList P img = [] ↔ img.H < 8 ∨ img.W < 8) ∧
    (img.H < 8 ∨ img.W < 8 → (compression_score P img).1.1 = 0.5) := by
  have hiff : variancesList P img = [] ↔ img.H < 8 ∨ img.W < 8 := by
    rw [variancesList, List.flatMap_eq_nil_iff]
    constructor
    · intro h
      by_cases hH : img.H < 8
      · exact Or.inl hH
      · right
        have hstop : ¬((img.H : ℤ) - 8 + 1 ≤ 0) := by omega
        have h0 : (0 : ℕ) ∈ pyRange0 ((img.H : ℤ) - 8 + 1) 8 := by
          rw [pyRange0, if_neg hstop]
          exact List.mem_map.mpr ⟨0, List.mem_range.mpr (Nat.succ_pos _), rfl⟩
        have hc := h 0 h0
        rw [List.map_eq_nil_iff] at hc
        have := (pyRange0_eq_nil_iff _ _).mp hc
        omega
    · intro h y hy
      rcases h with hH | hW
      · rw [(pyRange0_eq_nil_iff _ _).mpr (by omega)] at hy
        exact absurd hy (List.not_mem_nil _)
      · rw [List.map_eq_nil_iff]
        exact (pyRange0_eq_nil_iff _ _).mpr (by omega)
  refine ⟨hiff, fun h => ?_⟩
  have hc : (compression_score P img).1.1 =
      if (variancesList P img).length = 0 then (0.5 : ℝ)
      else clip (Real.tanh (listStd (variancesList P img) * 50)) 0 1 := rfl
  rw [hc, hiff.mpr h]
  rfl

/-- C10 witness: the 4×100 image — small in height only — has an empty
block partition and compression score 0.5. -/
theorem compression_blocks_empty_iff_small_witness :
    variancesList zeroPrims imgWide = [] ∧
    (compression_score zeroPrims imgWide).1.1 = 0.5 :=
  ⟨(compression_blocks_empty_iff_small zeroPrims imgWide).1.mpr (Or.inl (by decide)),
   (compression_blocks_empty_iff_small zeroPrims imgWide).2 (Or.inl (by decide))⟩

/-- C3 counterexample: for the concrete flat 1×1 input the residual list
is [0], and the 64 values of the density histogram the noise analyzer
builds sum to 160 — not 1 — so the histogram is not normalized to a
probability distribution whose bin values sum to 1. -/
theorem hist_density_not_probability :
    residualList flatPrims imgFlat = [(0 : ℝ)] ∧
    (∑ k : Fin 64, histDensityL (residualList flatPrims imgFlat) k) = 160 ∧
    (160 : ℝ) ≠ 1 := by
  refine ⟨residualList_flat, ?_, by norm_num⟩
  rw [residualList_flat]
  exact sum_histDensity _ (by rw [histTotal_single_zero]; exact one_ne_zero)

/-- C3 (amended): the 64-bin histogram of residual values over
[-0.2, 0.2] is normalized as a probability density — the bin values
times the bin width 1/160 sum to 1, equivalently the bin values
themselves sum to 1/binwidth = 160, not 1 — and the statistic fed into
the score is `-Σ hᵢ·ln hᵢ` over these epsilon-floored density values
(not the Shannon entropy of a distribution summing to 1). -/
theorem hist_density_integral_entropy (P : Prims) (img : Image)
    (h : histTotal (residualList P img) ≠ 0) :
    (∑ k : Fin 64, histDensityL (residualList P img) k * binW) = 1 ∧
    (∑ k : Fin 64, histDensityL (residualList P img) k) = 1 / binW ∧
    noiseEntropy (residualList P img) =
      -∑ k : Fin 64, (histDensityL (residualList P img) k + 1e-12) *
        Real.log (histDensityL (residualList P img) k + 1e-12) ∧
    (noise_score P img).1.1 =
      clip (0.45 * Real.tanh (residStd P img * 10) +
            0.35 * Real.tanh (lapStd P img * 5) +
            0.20 * Real.tanh (noiseEntropy (residualList P img) / 3.0)) 0 1 := by
  refine ⟨?_, ?_, rfl, rfl⟩
  · rw [← Finset.sum_mul, sum_histDensity _ h, binW]
    norm_num
  · rw [sum_histDensity _ h, binW]
    norm_num

/-- C3 witness: the flat 1×1 input has a nonempty in-range residual
sample, and the amended normalization and entropy identities hold there. -/
theorem hist_density_integral_entropy_witness :
    (∑ k : Fin 64, histDensityL (residualList flatPrims imgFlat) k * binW) = 1 ∧
    (∑ k : Fin 64, histDensityL (residualList flatPrims imgFlat) k) = 1 / binW ∧
    noiseEntropy (residualList flatPrims imgFlat) =
      -∑ k : Fin 64, (histDensityL (residualList flatPrims imgFlat) k + 1e-12) *
        Real.log (histDensityL (residualList flatPrims imgFlat) k + 1e-12) ∧
    (noise_score flatPrims imgFlat).1.1 =
      clip (0.45 * Real.tanh (residStd flatPrims imgFlat * 10) +
            0.35 * Real.tanh (lapStd flatPrims imgFlat * 5) +
            0.20 * Real.tanh (noiseEntropy (residualList flatPrims imgFlat) / 3.0)) 0 1 :=
  hist_density_integral_entropy flatPrims imgFlat
    (by rw [residualList_flat, histTotal_single_zero]; exact one_ne_zero)
